import Mathlib

/-!  Shallow embedding of the image build cache resolution engine
     (daemon/internal/image/cache/cache.go): the local parent-chain cache,
     the history-based cache, and the restoration procedure, together with
     the store collaborator they call through the ImageCacheStore contract.

     Machine integers do not matter here (all arithmetic is on small list
     lengths), errors are modelled with `Option` (`none` = the Go call
     returned an error, or hit an unguarded index panic), and the store is
     concrete data so that everything evaluates. -/

namespace MobyCache

/-- One build step's metadata (`image.History`): creation time, the command
that produced the step (`CreatedBy`), author, comment, and the
`EmptyLayer` flag.  `reflect.DeepEqual` on history entries becomes
structural equality. -/
structure HistoryEntry where
  created    : Option Int
  createdBy  : String
  author     : String
  comment    : String
  emptyLayer : Bool
deriving DecidableEq

instance : Inhabited HistoryEntry := ⟨⟨none, "", "", "", false⟩⟩

/-- `image.RootFS`: the type tag and the ordered list of layer diff IDs. -/
structure RootFS where
  fsType  : String
  diffIDs : List String
deriving DecidableEq

/-- Modelled from the spec: `image.NewRootFS` (the image package is not under
src/) returns a fresh RootFS with no diff IDs. -/
def NewRootFS : RootFS := { fsType := "layers", diffIDs := [] }

/-- `RootFS.Append` adds one diff ID at the end of the list. -/
def RootFS.append (r : RootFS) (d : String) : RootFS :=
  { r with diffIDs := r.diffIDs ++ [d] }

/-- Container config; the cache logic only ever consults the command list
(`Cmd`), so that is the field we carry. -/
structure Config where
  cmd : List String
deriving DecidableEq

/-- OCI platform record (ocispec.Platform). -/
structure Platform where
  architecture : String
  os           : String
  osVersion    : String
  osFeatures   : List String
  variant      : String
deriving DecidableEq

/-- Modelled from the spec (§3 data model; the image package is not under
src/): an image record with the fields cache.go reads and writes.  `id`
stands for the content-addressed identity under which the store serves the
image; `config` is the declared config (`V1Image.Config`, a nullable
pointer in Go) and `containerConfig` the stored container-config snapshot
(`V1Image.ContainerConfig`). -/
structure Image where
  id              : String
  created         : Option Int
  author          : String
  architecture    : String
  variant         : String
  os              : String
  osVersion       : String
  osFeatures      : List String
  dockerVersion   : String
  config          : Option Config
  containerConfig : Config
  rootFS          : RootFS
  history         : List HistoryEntry
deriving DecidableEq

/-- Modelled from the spec: `Image.Platform` (image package, not under src/)
copies the image's stored platform fields; for legacy images these can all
be empty. -/
def Image.platform (img : Image) : Platform :=
  { architecture := img.architecture, os := img.os, osVersion := img.osVersion,
    osFeatures := img.osFeatures, variant := img.variant }

/-- Modelled from the spec: the current builder's version string
(`dockerversion.Version`, not under src/).  Its value never influences the
cache decisions. -/
def dockerversionVersion : String := "library-import"

/-- Modelled from the spec: `compare` (compare.go, not under src/) checks a
stored runtime config against the requested config's command
("skip if its stored runtime config doesn't match the requested config's
command"). -/
def compare (a b : Config) : Bool := a.cmd == b.cmd

/-- Modelled from the spec: `comparePlatform` (compare.go, not under src/).
Per the spec an empty/absent image platform is treated as a wildcard;
otherwise OS and architecture must agree with the builder's platform. -/
def comparePlatform (builderPlatform imgPlatform : Platform) : Bool :=
  (imgPlatform.os == "" && imgPlatform.architecture == "") ||
  (builderPlatform.os == imgPlatform.os &&
   builderPlatform.architecture == imgPlatform.architecture)

/-- The ImageCacheStore collaborator as concrete data: an ordered image
list (lookups and child enumeration iterate it in order — the Go map order
is documented as undefined, so one fixed order is a faithful instance),
child-to-parent links, the set of locally built ids, the ids for which
`IsBuiltLocally` errors, the links on which `SetParent` fails, and the
outcome of `Create` (`none` = create fails). -/
structure Store where
  images             : List Image
  parents            : List (String × String)
  locallyBuilt       : List String
  builtLocallyBroken : List String
  setParentFails     : List (String × String)
  createId           : Option String
deriving DecidableEq

/-- `Store.Get`: lookup by id; `none` models the store error. -/
def Store.get (s : Store) (id : String) : Option Image :=
  s.images.find? fun i => i.id == id

/-- `Store.GetParent`: follow the child-to-parent link; `none` models the
"no parent recorded" error. -/
def Store.getParent (s : Store) (id : String) : Option String :=
  (s.parents.find? fun q => q.1 == id).map fun q => q.2

/-- `Store.Children`: all ids whose parent link points at `id`, in store
order. -/
def Store.children (s : Store) (id : String) : List String :=
  (s.parents.filter fun q => q.2 == id).map fun q => q.1

/-- `Store.IsBuiltLocally`; `none` models the error branch that cache.go
logs and skips. -/
def Store.isBuiltLocally (s : Store) (id : String) : Option Bool :=
  if s.builtLocallyBroken.contains id then none
  else some (s.locallyBuilt.contains id)

/-- `isValidConfig` from cache.go: the requested command, joined with
spaces, must equal the history entry's `CreatedBy`. -/
def isValidConfig (cfg : Config) (h : HistoryEntry) : Bool :=
  String.intercalate " " cfg.cmd == h.createdBy

/-- `isValidParent` from cache.go.  The zip loops render the Go index loops:
the length guards already hold on both branches that reach them, so the zip
covers exactly the parent's entries. -/
def isValidParent (img : Image) (parent : Option Image) : Bool :=
  if img.history.length == 0 then false
  else
    match parent with
    | none => true
    | some p =>
      if p.history.length == 0 && p.rootFS.diffIDs.length == 0 then true
      else if p.history.length ≥ img.history.length then false
      else if p.rootFS.diffIDs.length > img.rootFS.diffIDs.length then false
      else
        ((p.history.zip img.history).all fun hh => hh.1 == hh.2) &&
        ((p.rootFS.diffIDs.zip img.rootFS.diffIDs).all fun dd => dd.1 == dd.2)

/-- The index loop of `getLayerForHistoryIndex`: walk the history counting
non-empty-layer entries; `none` means the loop hit `index` on an
empty-layer entry (the Go function returns "" there), `some k` means the
loop left `layerIndex = k` for the final indexing step. -/
def getLayerScan : List HistoryEntry → Nat → Nat → Option Nat
  | [], _, layerIndex => some layerIndex
  | h :: _, 0, layerIndex => if h.emptyLayer then none else some layerIndex
  | h :: t, i + 1, layerIndex =>
      getLayerScan t i (if h.emptyLayer then layerIndex else layerIndex + 1)

/-- `getLayerForHistoryIndex` from cache.go.  The outer `none` models the
unguarded `DiffIDs[layerIndex]` going out of range (a Go panic); `some ""`
is the explicit empty-layer return. -/
def getLayerForHistoryIndex (img : Image) (index : Nat) : Option String :=
  match getLayerScan img.history index 0 with
  | none => some ""
  | some layerIndex => img.rootFS.diffIDs.get? layerIndex

/-- The parent's history, or nil's zero value. -/
def parentHistory : Option Image → List HistoryEntry
  | some p => p.history
  | none => []

/-- The parent's RootFS, or a fresh one when the parent is nil. -/
def parentRootFS : Option Image → RootFS
  | some p => p.rootFS
  | none => NewRootFS

/-- `lenHistory` as computed by cache.go: the parent's history length, 0
for a nil parent. -/
def parentHistLen : Option Image → Nat
  | some p => p.history.length
  | none => 0

/-- The image record `restoreCachedImage` builds and hands to
`Store.Create`.  `none` covers the two unguarded index panics
(`target.History[lenHistory]` and the diff-ID indexing).  Fields the Go
struct literal leaves at their zero value (`id`, `variant`,
`containerConfig`) are zeroed here too. -/
def restoredImage (parent : Option Image) (target : Image) (cfg : Config) :
    Option Image :=
  match target.history.get? (parentHistLen parent),
        getLayerForHistoryIndex target (parentHistLen parent) with
  | some entry, some lyr =>
    let history := parentHistory parent ++ [entry]
    let rootFS :=
      if lyr != "" then RootFS.append (parentRootFS parent) lyr
      else parentRootFS parent
    some
      { id := ""
        created := (history.getLastD entry).created
        author := target.author
        architecture := target.architecture
        variant := ""
        os := target.os
        osVersion := target.osVersion
        osFeatures := target.osFeatures
        dockerVersion := dockerversionVersion
        config := some cfg
        containerConfig := { cmd := [] }
        rootFS := rootFS
        history := history }
  | _, _ => none

/-- `ImageCache.restoreCachedImage`: build the restored image and persist it
through `Store.Create`; `none` is the wrapped error (or a panic while
building). -/
def restoreCachedImage (s : Store) (parent : Option Image) (target : Image)
    (cfg : Config) : Option String :=
  match restoredImage parent target cfg with
  | none => none
  | some _ => s.createId

/-- `match.Created.Before(*img.Created)`; the accumulator's timestamp is
never nil when consulted (it was set from a non-nil timestamp), so the
`none` branch is unreachable and safely reads as false. -/
def timeBefore : Option Int → Int → Bool
  | some a, b => a < b
  | none, _ => false

/-- `match == nil || match.Created.Before(*img.Created)`. -/
def matchBefore : Option Image → Int → Bool
  | none, _ => true
  | some mi, c => timeBefore mi.created c

/-- The child scan of `getLocalCachedImage`, one child id at a time with the
running best match as accumulator.  Outer `none` = the `Get` failure that
aborts the whole scan; every other failure skips the child. -/
def localScan (s : Store) (cfg : Config) (pf : Platform) :
    List String → Option Image → Option (Option Image)
  | [], m => some m
  | id :: rest, m =>
    match s.get id with
    | none => none
    | some img =>
      match s.isBuiltLocally id with
      | none => localScan s cfg pf rest m
      | some builtLocally =>
        if !builtLocally then localScan s cfg pf rest m
        else if img.platform.os == "" && img.platform.architecture == "" then
          localScan s cfg pf rest m
        else if !(comparePlatform pf img.platform) then
          localScan s cfg pf rest m
        else if compare img.containerConfig cfg then
          match img.created with
          | some c =>
            if matchBefore m c then localScan s cfg pf rest (some img)
            else localScan s cfg pf rest m
          | none => localScan s cfg pf rest m
        else localScan s cfg pf rest m

/-- `getLocalCachedImage` from cache.go: nil config short-circuits to a nil
match before any store access; otherwise scan the parent's children. -/
def getLocalCachedImage (s : Store) (parentID : String) (cfg : Option Config)
    (pf : Platform) : Option (Option Image) :=
  match cfg with
  | none => some none
  | some c => localScan s c pf (s.children parentID) none

/-- `getImageIDAndError`: nil image or error collapse to ("", err). -/
def getImageIDAndError (r : Option (Option Image)) : Option String :=
  match r with
  | none => none
  | some none => some ""
  | some (some img) => some img.id

/-- `LocalImageCache` wraps the store. -/
structure LocalImageCache where
  store : Store
deriving DecidableEq

/-- `LocalImageCache.GetCache`. -/
def LocalImageCache.GetCache (lic : LocalImageCache) (imgID : String)
    (cfg : Option Config) (pf : Platform) : Option String :=
  getImageIDAndError (getLocalCachedImage lic.store imgID cfg pf)

/-- The recursive `isParent` walk, with explicit fuel.  The Go original has
no cycle guard and diverges on cyclic parent links; with fuel one beyond
the number of links the two agree on every acyclic store, because an
acyclic ancestor chain steps through distinct links. -/
def isParentFuel (s : Store) : Nat → String → String → Bool
  | 0, _, _ => false
  | n + 1, imgID, parentID =>
    match s.getParent imgID with
    | none => false
    | some nextParent =>
      nextParent == parentID || isParentFuel s n nextParent parentID

/-- `ImageCache.isParent`: is `parentID` a proper ancestor of `imgID` along
the store's parent links? -/
def Store.isParentOf (s : Store) (imgID parentID : String) : Bool :=
  isParentFuel s (s.parents.length + 1) imgID parentID

/-- The source loop of `ImageCache.GetCache`.  `orig` is the source list the
loop started from (returned unchanged on every exit except the mid-history
restoration, which narrows it to the matched target).  The `getD` renders
`target.History[lenHistory]`, which Go only evaluates after `isValidParent`
has put the index in range. -/
def scanSources (s : Store) (parent : Option Image) (lenHistory : Nat)
    (cfg : Config) (orig : List Image) :
    List Image → Option (String × List Image)
  | [] => some ("", orig)
  | target :: rest =>
    if isValidParent target parent &&
        isValidConfig cfg (target.history.getD lenHistory default) then
      if target.history.length - 1 == lenHistory then
        match parent with
        | some p =>
          if s.setParentFails.any fun q => q.1 == target.id && q.2 == p.id then
            none
          else some (target.id, orig)
        | none => some (target.id, orig)
      else
        match restoreCachedImage s parent target cfg with
        | none => none
        | some newID => some (newID, [target])
    else scanSources s parent lenHistory cfg orig rest

/-- `ImageCache`: the history-based cache, holding the mutable source set
and the store. -/
structure ImageCache where
  sources : List Image
  store   : Store
deriving DecidableEq

/-- `ImageCache.Populate` appends one image to the source set. -/
def ImageCache.Populate (ic : ImageCache) (img : Image) : ImageCache :=
  { ic with sources := ic.sources ++ [img] }

/-- `ImageCache.GetCache`.  The result pairs the returned id with the source
set after the call (the Go method mutates `ic.sources` in place); `none` is
an error return.  A nil requested config is not modelled: on that path the
Go code would dereference the nil config inside `isValidConfig`. -/
def ImageCache.GetCache (ic : ImageCache) (parentID : String) (cfg : Config)
    (pf : Platform) : Option (String × List Image) :=
  match LocalImageCache.GetCache ⟨ic.store⟩ parentID (some cfg) pf with
  | none => none
  | some imgID =>
    if imgID != "" &&
        (ic.sources.any fun src => Store.isParentOf ic.store src.id imgID) then
      some (imgID, ic.sources)
    else if parentID == "" then
      scanSources ic.store none 0 cfg ic.sources ic.sources
    else
      match ic.store.get parentID with
      | none => none
      | some parent =>
        scanSources ic.store (some parent) parent.history.length cfg
          ic.sources ic.sources

/-- Spec-side view of one child scan step: the image at `id` if and only if
it survives every skip filter and the config comparison. -/
def candidateAt (s : Store) (cfg : Config) (pf : Platform) (id : String) :
    Option Image :=
  match s.get id with
  | none => none
  | some img =>
    match s.isBuiltLocally id with
    | none => none
    | some builtLocally =>
      if builtLocally && !(img.platform.os == "" && img.platform.architecture == "")
          && comparePlatform pf img.platform
          && compare img.containerConfig cfg then
        some img
      else none

/-- Non-empty-layer entries in a history slice. -/
def countNonEmpty (l : List HistoryEntry) : Nat :=
  (l.filter fun h => !h.emptyLayer).length

/-- The §3 data-model invariant: as many diff IDs as non-empty-layer history
entries. -/
@[reducible] def HistoryLayerInvariant (img : Image) : Prop :=
  img.rootFS.diffIDs.length = countNonEmpty img.history

/-! ### Concrete images and stores used to evaluate the definitions -/

/-- History entry for the step `RUN a`. -/
def hA : HistoryEntry :=
  { created := some 1, createdBy := "RUN a", author := "", comment := "",
    emptyLayer := false }

/-- History entry for the step `RUN b`. -/
def hB : HistoryEntry :=
  { created := some 2, createdBy := "RUN b", author := "", comment := "",
    emptyLayer := false }

/-- History entry for the step `RUN c`. -/
def hC : HistoryEntry :=
  { created := some 3, createdBy := "RUN c", author := "", comment := "",
    emptyLayer := false }

/-- Requested config whose joined command is `RUN a`. -/
def cfgA : Config := { cmd := ["RUN", "a"] }

/-- Requested config whose joined command is `RUN b`. -/
def cfgB : Config := { cmd := ["RUN", "b"] }

/-- A linux/amd64 builder platform. -/
def pfLinux : Platform :=
  { architecture := "amd64", os := "linux", osVersion := "", osFeatures := [],
    variant := "" }

/-- A three-step source image, every step contributing a layer. -/
def src0 : Image :=
  { id := "src0", created := some 3, author := "au", architecture := "amd64",
    variant := "", os := "linux", osVersion := "", osFeatures := [],
    dockerVersion := "", config := some { cmd := ["ORIG"] },
    containerConfig := { cmd := [] },
    rootFS := { fsType := "layers", diffIDs := ["d1", "d2", "d3"] },
    history := [hA, hB, hC] }

/-- A one-step parent image: history `[hA]`, one layer. -/
def imgP : Image :=
  { id := "p", created := some 1, author := "", architecture := "amd64",
    variant := "", os := "linux", osVersion := "", osFeatures := [],
    dockerVersion := "", config := none, containerConfig := { cmd := [] },
    rootFS := { fsType := "layers", diffIDs := ["d1"] },
    history := [hA] }

/-- A locally built child of `imgP` whose stored container config matches
`cfgB`. -/
def imgL : Image :=
  { id := "l", created := some 5, author := "", architecture := "amd64",
    variant := "", os := "linux", osVersion := "", osFeatures := [],
    dockerVersion := "", config := none, containerConfig := cfgB,
    rootFS := { fsType := "layers", diffIDs := ["d1", "dl"] },
    history := [hA, hB] }

/-- A two-step source image extending `imgP` by the step `RUN b`. -/
def imgS : Image :=
  { id := "s", created := some 4, author := "", architecture := "amd64",
    variant := "", os := "linux", osVersion := "", osFeatures := [],
    dockerVersion := "", config := none, containerConfig := { cmd := [] },
    rootFS := { fsType := "layers", diffIDs := ["d1", "d2"] },
    history := [hA, hB] }

/-- A store where `imgL` is a locally built child of `imgP` and no parent
link reaches `imgS`: the local hit is real but is no ancestor of the
source. -/
def store2 : Store :=
  { images := [imgP, imgL], parents := [("l", "p")], locallyBuilt := ["l"],
    builtLocallyBroken := [], setParentFails := [], createId := none }

/-- History-based cache over `store2`, seeded with `imgS`. -/
def ic2 : ImageCache := { sources := [imgS], store := store2 }

/-- Like `store2` but with a source `s2` linked as a child of the local hit
`l`, so the ancestry check succeeds. -/
def store2b : Store :=
  { images := [imgP, imgL], parents := [("l", "p"), ("s2", "l")],
    locallyBuilt := ["l"], builtLocallyBroken := [], setParentFails := [],
    createId := none }

/-- A source registered for `store2b`, descendant of the local hit. -/
def src2b : Image :=
  { id := "s2", created := some 6, author := "", architecture := "amd64",
    variant := "", os := "linux", osVersion := "", osFeatures := [],
    dockerVersion := "", config := none, containerConfig := { cmd := [] },
    rootFS := { fsType := "layers", diffIDs := ["d1", "dl", "dx"] },
    history := [hA, hB, hC] }

/-- History-based cache over `store2b`. -/
def ic2b : ImageCache := { sources := [src2b], store := store2b }

/-- A store whose `SetParent` fails on the link from `s` to `p`. -/
def store3 : Store :=
  { images := [imgP], parents := [], locallyBuilt := [],
    builtLocallyBroken := [], setParentFails := [("s", "p")],
    createId := none }

/-- History-based cache over `store3`, seeded with `imgS` (a final-step
match for parent `p` under `cfgB`). -/
def ic3 : ImageCache := { sources := [imgS], store := store3 }

/-- A source with no history: `isValidParent` rejects it outright. -/
def imgNoHist : Image :=
  { id := "x", created := none, author := "", architecture := "amd64",
    variant := "", os := "linux", osVersion := "", osFeatures := [],
    dockerVersion := "", config := none, containerConfig := { cmd := [] },
    rootFS := { fsType := "layers", diffIDs := [] }, history := [] }

/-- A locally built child whose stored platform is entirely empty (legacy
data) but which matches `cfgB` and has a creation timestamp. -/
def imgEmptyPlat : Image :=
  { id := "c", created := some 1, author := "", architecture := "",
    variant := "", os := "", osVersion := "", osFeatures := [],
    dockerVersion := "", config := none, containerConfig := cfgB,
    rootFS := { fsType := "layers", diffIDs := [] }, history := [] }

/-- A store where the empty-platform child `c` is the only child of `p`. -/
def store5 : Store :=
  { images := [imgEmptyPlat], parents := [("c", "p")], locallyBuilt := ["c"],
    builtLocallyBroken := [], setParentFails := [], createId := none }

/-- A matching child of `p` with timestamp 2. -/
def imgC1 : Image :=
  { id := "c1", created := some 2, author := "", architecture := "amd64",
    variant := "", os := "linux", osVersion := "", osFeatures := [],
    dockerVersion := "", config := none, containerConfig := cfgB,
    rootFS := { fsType := "layers", diffIDs := [] }, history := [] }

/-- A matching child of `p` with the later timestamp 5. -/
def imgC2 : Image :=
  { id := "c2", created := some 5, author := "", architecture := "amd64",
    variant := "", os := "linux", osVersion := "", osFeatures := [],
    dockerVersion := "", config := none, containerConfig := cfgB,
    rootFS := { fsType := "layers", diffIDs := [] }, history := [] }

/-- A store with two matching children of `p`, timestamps 2 and 5. -/
def store6 : Store :=
  { images := [imgC1, imgC2], parents := [("c1", "p"), ("c2", "p")],
    locallyBuilt := ["c1", "c2"], builtLocallyBroken := [],
    setParentFails := [], createId := none }

/-- A two-step source for the mid-history restoration witness. -/
def srcM : Image :=
  { id := "m", created := some 9, author := "", architecture := "amd64",
    variant := "", os := "linux", osVersion := "", osFeatures := [],
    dockerVersion := "", config := none, containerConfig := { cmd := [] },
    rootFS := { fsType := "layers", diffIDs := ["dm1", "dm2"] },
    history := [hA, hB] }

/-- An empty store whose `Create` succeeds with id `new9`. -/
def store9 : Store :=
  { images := [], parents := [], locallyBuilt := [], builtLocallyBroken := [],
    setParentFails := [], createId := some "new9" }

/-- History-based cache over `store9`, seeded with `srcM`. -/
def ic9 : ImageCache := { sources := [srcM], store := store9 }

/-! ### Lemmas about the local child scan -/

/-- One step of the child scan, phrased through `candidateAt`. -/
theorem localScan_cons (s : Store) (cfg : Config) (pf : Platform) (id : String)
    (rest : List String) (m : Option Image) (img0 : Image)
    (hg : s.get id = some img0) :
    localScan s cfg pf (id :: rest) m =
      match candidateAt s cfg pf id with
      | none => localScan s cfg pf rest m
      | some img =>
        match img.created with
        | none => localScan s cfg pf rest m
        | some c =>
          if matchBefore m c then localScan s cfg pf rest (some img)
          else localScan s cfg pf rest m := by
  simp only [localScan, candidateAt, hg]
  cases hb : s.isBuiltLocally id with
  | none => rfl
  | some bl =>
    cases bl with
    | false => simp
    | true =>
      cases hP : (img0.platform.os == "" && img0.platform.architecture == "") with
      | true => simp [hP]
      | false =>
        cases hC : comparePlatform pf img0.platform with
        | false => simp [hP, hC]
        | true =>
          cases hK : compare img0.containerConfig cfg with
          | false => simp [hP, hC, hK]
          | true =>
            simp only [hP, hC, hK, Bool.not_false, Bool.and_true, Bool.true_and,
              Bool.and_false, if_true]
            cases img0.created <;> rfl

/-- Unpacking a successful `candidateAt`: the child resolves to the image and
survives every filter. -/
theorem candidateAt_props (s : Store) (cfg : Config) (pf : Platform)
    (id : String) (img : Image) (h : candidateAt s cfg pf id = some img) :
    s.get id = some img ∧ s.isBuiltLocally id = some true ∧
    (img.platform.os == "" && img.platform.architecture == "") = false ∧
    comparePlatform pf img.platform = true ∧
    compare img.containerConfig cfg = true := by
  unfold candidateAt at h
  cases hg : s.get id with
  | none => rw [hg] at h; exact absurd h (by simp)
  | some img0 =>
    rw [hg] at h
    simp only at h
    cases hb : s.isBuiltLocally id with
    | none => rw [hb] at h; exact absurd h (by simp)
    | some bl =>
      rw [hb] at h
      simp only at h
      by_cases hcond : (bl &&
          !(img0.platform.os == "" && img0.platform.architecture == "") &&
          comparePlatform pf img0.platform &&
          compare img0.containerConfig cfg) = true
      · rw [if_pos hcond] at h
        injection h with h; subst h
        rw [Bool.and_eq_true, Bool.and_eq_true, Bool.and_eq_true] at hcond
        obtain ⟨⟨⟨hbl, hplat⟩, hcp⟩, hcf⟩ := hcond
        subst hbl
        refine ⟨rfl, rfl, ?_, hcp, hcf⟩
        cases hx : (img0.platform.os == "" && img0.platform.architecture == "") with
        | false => rfl
        | true => rw [hx] at hplat; exact absurd hplat (by decide)
      · rw [if_neg hcond] at h
        exact absurd h (by simp)

/-- Cons step when the head child fails a filter or the config check. -/
theorem localScan_cons_skip (s : Store) (cfg : Config) (pf : Platform)
    (id : String) (rest : List String) (m : Option Image) (img0 : Image)
    (hg : s.get id = some img0) (hcand : candidateAt s cfg pf id = none) :
    localScan s cfg pf (id :: rest) m = localScan s cfg pf rest m := by
  simp only [localScan_cons s cfg pf id rest m img0 hg, hcand]

/-- Cons step when the head child passes but carries no timestamp. -/
theorem localScan_cons_nocreated (s : Store) (cfg : Config) (pf : Platform)
    (id : String) (rest : List String) (m : Option Image) (img0 imgc : Image)
    (hg : s.get id = some img0) (hcand : candidateAt s cfg pf id = some imgc)
    (hcr : imgc.created = none) :
    localScan s cfg pf (id :: rest) m = localScan s cfg pf rest m := by
  simp only [localScan_cons s cfg pf id rest m img0 hg, hcand, hcr]

/-- Cons step when the head child passes with a timestamp. -/
theorem localScan_cons_created (s : Store) (cfg : Config) (pf : Platform)
    (id : String) (rest : List String) (m : Option Image) (img0 imgc : Image)
    (c : Int) (hg : s.get id = some img0)
    (hcand : candidateAt s cfg pf id = some imgc) (hcr : imgc.created = some c) :
    localScan s cfg pf (id :: rest) m =
      if matchBefore m c then localScan s cfg pf rest (some imgc)
      else localScan s cfg pf rest m := by
  simp only [localScan_cons s cfg pf id rest m img0 hg, hcand, hcr]

/-- A nonempty scan result came from the accumulator or from a passing
child, and always carries a non-nil creation timestamp. -/
theorem localScan_sound (s : Store) (cfg : Config) (pf : Platform) :
    ∀ (ids : List String) (m : Option Image) (img : Image),
      localScan s cfg pf ids m = some (some img) →
      m = some img ∨
        ∃ id ∈ ids, candidateAt s cfg pf id = some img ∧
          ∃ c, img.created = some c := by
  intro ids
  induction ids with
  | nil =>
    intro m img h
    simp only [localScan] at h
    exact Or.inl (by injection h)
  | cons id rest ih =>
    intro m img h
    cases hg : s.get id with
    | none => simp [localScan, hg] at h
    | some img0 =>
      cases hcand : candidateAt s cfg pf id with
      | none =>
        rw [localScan_cons_skip s cfg pf id rest m img0 hg hcand] at h
        rcases ih m img h with hm | ⟨id2, hmem, h1, h2⟩
        · exact Or.inl hm
        · exact Or.inr ⟨id2, List.mem_cons_of_mem _ hmem, h1, h2⟩
      | some imgc =>
        cases hcr : imgc.created with
        | none =>
          rw [localScan_cons_nocreated s cfg pf id rest m img0 imgc hg hcand hcr] at h
          rcases ih m img h with hm | ⟨id2, hmem, h1, h2⟩
          · exact Or.inl hm
          · exact Or.inr ⟨id2, List.mem_cons_of_mem _ hmem, h1, h2⟩
        | some c =>
          rw [localScan_cons_created s cfg pf id rest m img0 imgc c hg hcand hcr] at h
          by_cases hmb : matchBefore m c = true
          · rw [if_pos hmb] at h
            rcases ih (some imgc) img h with hm | ⟨id2, hmem, h1, h2⟩
            · injection hm with hm
              subst hm
              exact Or.inr ⟨id, List.mem_cons_self id rest, hcand, c, hcr⟩
            · exact Or.inr ⟨id2, List.mem_cons_of_mem _ hmem, h1, h2⟩
          · rw [if_neg hmb] at h
            rcases ih m img h with hm | ⟨id2, hmem, h1, h2⟩
            · exact Or.inl hm
            · exact Or.inr ⟨id2, List.mem_cons_of_mem _ hmem, h1, h2⟩

/-- The scan never lowers the accumulator's timestamp. -/
theorem localScan_acc_le (s : Store) (cfg : Config) (pf : Platform) :
    ∀ (ids : List String) (m : Option Image) (mi : Image) (t : Int)
      (r : Option Image),
      localScan s cfg pf ids m = some r → m = some mi → mi.created = some t →
      ∃ rimg tr, r = some rimg ∧ rimg.created = some tr ∧ t ≤ tr := by
  intro ids
  induction ids with
  | nil =>
    intro m mi t r h hm hc
    simp only [localScan] at h
    injection h with h
    subst h; subst hm
    exact ⟨mi, t, rfl, hc, le_refl t⟩
  | cons id rest ih =>
    intro m mi t r h hm hc
    cases hg : s.get id with
    | none => simp [localScan, hg] at h
    | some img0 =>
      cases hcand : candidateAt s cfg pf id with
      | none =>
        rw [localScan_cons_skip s cfg pf id rest m img0 hg hcand] at h
        exact ih m mi t r h hm hc
      | some imgc =>
        cases hcr : imgc.created with
        | none =>
          rw [localScan_cons_nocreated s cfg pf id rest m img0 imgc hg hcand hcr] at h
          exact ih m mi t r h hm hc
        | some c =>
          rw [localScan_cons_created s cfg pf id rest m img0 imgc c hg hcand hcr] at h
          by_cases hmb : matchBefore m c = true
          · rw [if_pos hmb] at h
            subst hm
            have htc : t < c := by
              simpa [matchBefore, timeBefore, hc] using hmb
            rcases ih (some imgc) imgc c r h rfl hcr with ⟨rimg, tr, h1, h2, h3⟩
            exact ⟨rimg, tr, h1, h2, le_trans (le_of_lt htc) h3⟩
          · rw [if_neg hmb] at h
            exact ih m mi t r h hm hc

/-- Every passing child's timestamp is bounded by the scan result's. -/
theorem localScan_passing_le (s : Store) (cfg : Config) (pf : Platform) :
    ∀ (ids : List String) (m : Option Image) (r : Option Image),
      localScan s cfg pf ids m = some r →
      (∀ mi, m = some mi → ∃ tm, mi.created = some tm) →
      ∀ id ∈ ids, ∀ img t2, candidateAt s cfg pf id = some img →
        img.created = some t2 →
        ∃ rimg tr, r = some rimg ∧ rimg.created = some tr ∧ t2 ≤ tr := by
  intro ids
  induction ids with
  | nil =>
    intro m r h hacc id hmem
    exact absurd hmem (List.not_mem_nil id)
  | cons id0 rest ih =>
    intro m r h hacc id hmem img t2 hcand hcr
    cases hg : s.get id0 with
    | none => simp [localScan, hg] at h
    | some img0 =>
      rcases List.mem_cons.mp hmem with heq | hmem2
      · subst heq
        rw [localScan_cons_created s cfg pf id rest m img0 img t2 hg hcand hcr] at h
        by_cases hmb : matchBefore m t2 = true
        · rw [if_pos hmb] at h
          exact localScan_acc_le s cfg pf rest (some img) img t2 r h rfl hcr
        · rw [if_neg hmb] at h
          cases hm : m with
          | none => rw [hm] at hmb; simp [matchBefore] at hmb
          | some mi =>
            subst hm
            rcases hacc mi rfl with ⟨tm, htm⟩
            have hle : t2 ≤ tm := by
              have hx := hmb
              simp [matchBefore, timeBefore, htm] at hx
              omega
            rcases localScan_acc_le s cfg pf rest (some mi) mi tm r h rfl htm
              with ⟨rimg, tr, h1, h2, h3⟩
            exact ⟨rimg, tr, h1, h2, le_trans hle h3⟩
      · cases hcand0 : candidateAt s cfg pf id0 with
        | none =>
          rw [localScan_cons_skip s cfg pf id0 rest m img0 hg hcand0] at h
          exact ih m r h hacc id hmem2 img t2 hcand hcr
        | some imgc =>
          cases hcr0 : imgc.created with
          | none =>
            rw [localScan_cons_nocreated s cfg pf id0 rest m img0 imgc hg hcand0 hcr0] at h
            exact ih m r h hacc id hmem2 img t2 hcand hcr
          | some c =>
            rw [localScan_cons_created s cfg pf id0 rest m img0 imgc c hg hcand0 hcr0] at h
            by_cases hmb : matchBefore m c = true
            · rw [if_pos hmb] at h
              refine ih (some imgc) r h ?_ id hmem2 img t2 hcand hcr
              intro mi hmi
              injection hmi with hmi
              subst hmi
              exact ⟨c, hcr0⟩
            · rw [if_neg hmb] at h
              exact ih m r h hacc id hmem2 img t2 hcand hcr

/-- With every child resolvable, the scan returns without error. -/
theorem localScan_total (s : Store) (cfg : Config) (pf : Platform) :
    ∀ (ids : List String) (m : Option Image),
      (∀ id ∈ ids, (s.get id).isSome = true) →
      ∃ r, localScan s cfg pf ids m = some r := by
  intro ids
  induction ids with
  | nil => intro m _; exact ⟨m, rfl⟩
  | cons id rest ih =>
    intro m hres
    have h0 : (s.get id).isSome = true := hres id (List.mem_cons_self id rest)
    cases hg : s.get id with
    | none => rw [hg] at h0; simp at h0
    | some img0 =>
      have hrest : ∀ i ∈ rest, (s.get i).isSome = true :=
        fun i hi => hres i (List.mem_cons_of_mem _ hi)
      cases hcand : candidateAt s cfg pf id with
      | none =>
        rw [localScan_cons_skip s cfg pf id rest m img0 hg hcand]
        exact ih m hrest
      | some imgc =>
        cases hcr : imgc.created with
        | none =>
          rw [localScan_cons_nocreated s cfg pf id rest m img0 imgc hg hcand hcr]
          exact ih m hrest
        | some c =>
          rw [localScan_cons_created s cfg pf id rest m img0 imgc c hg hcand hcr]
          by_cases hmb : matchBefore m c = true
          · rw [if_pos hmb]; exact ih (some imgc) hrest
          · rw [if_neg hmb]; exact ih m hrest

/-- With every child resolvable and none passing, the scan returns its
accumulator unchanged. -/
theorem localScan_none_passing (s : Store) (cfg : Config) (pf : Platform) :
    ∀ (ids : List String) (m : Option Image),
      (∀ id ∈ ids, (s.get id).isSome = true) →
      (∀ id ∈ ids, candidateAt s cfg pf id = none) →
      localScan s cfg pf ids m = some m := by
  intro ids
  induction ids with
  | nil => intro m _ _; rfl
  | cons id rest ih =>
    intro m hres hnone
    have h0 := hres id (List.mem_cons_self id rest)
    cases hg : s.get id with
    | none => rw [hg] at h0; simp at h0
    | some img0 =>
      rw [localScan_cons_skip s cfg pf id rest m img0 hg
        (hnone id (List.mem_cons_self id rest))]
      exact ih m (fun i hi => hres i (List.mem_cons_of_mem _ hi))
        (fun i hi => hnone i (List.mem_cons_of_mem _ hi))

/-! ### Lemmas about the layer index computation -/

/-- `countNonEmpty` over a cons. -/
theorem countNonEmpty_cons (h : HistoryEntry) (l : List HistoryEntry) :
    countNonEmpty (h :: l) = (if h.emptyLayer then 0 else 1) + countNonEmpty l := by
  cases he : h.emptyLayer <;> simp [countNonEmpty, List.filter_cons, he] <;> omega

/-- The index loop: hitting an empty-layer entry returns the sentinel,
otherwise the loop accumulates exactly the non-empty-layer count of the
prefix before `n`. -/
theorem getLayerScan_out (hist : List HistoryEntry) :
    ∀ (n acc : Nat) (entry : HistoryEntry), hist.get? n = some entry →
      (entry.emptyLayer = true → getLayerScan hist n acc = none) ∧
      (entry.emptyLayer = false →
        getLayerScan hist n acc = some (acc + countNonEmpty (hist.take n))) := by
  induction hist with
  | nil => intro n acc entry h; simp at h
  | cons h0 t ih =>
    intro n acc entry hget
    cases n with
    | zero =>
      rw [List.get?_cons_zero] at hget
      injection hget with hget
      subst hget
      constructor
      · intro he; simp [getLayerScan, he]
      · intro he; simp [getLayerScan, he, countNonEmpty]
    | succ n =>
      rw [List.get?_cons_succ] at hget
      constructor
      · intro he
        simp only [getLayerScan]
        exact (ih n (if h0.emptyLayer then acc else acc + 1) entry hget).1 he
      · intro he
        simp only [getLayerScan]
        rw [(ih n _ entry hget).2 he, List.take_succ_cons, countNonEmpty_cons]
        cases h0.emptyLayer <;> simp <;> omega

/-- A non-empty-layer entry at `n` contributes one more layer than the
prefix before it supplies. -/
theorem countNonEmpty_take_lt (hist : List HistoryEntry) :
    ∀ (n : Nat) (entry : HistoryEntry), hist.get? n = some entry →
      entry.emptyLayer = false →
      countNonEmpty (hist.take n) < countNonEmpty hist := by
  induction hist with
  | nil => intro n entry h _; simp at h
  | cons h0 t ih =>
    intro n entry hget he
    cases n with
    | zero =>
      rw [List.get?_cons_zero] at hget
      injection hget with hget
      subst hget
      simp [countNonEmpty_cons, he, countNonEmpty]
    | succ n =>
      rw [List.get?_cons_succ] at hget
      have hlt := ih n entry hget he
      rw [List.take_succ_cons, countNonEmpty_cons, countNonEmpty_cons]
      cases h0.emptyLayer <;> simp <;> omega

/-- `getLayerForHistoryIndex` at an empty-layer entry returns the empty
diff ID. -/
theorem getLayer_empty (target : Image) (index : Nat) (entry : HistoryEntry)
    (hget : target.history.get? index = some entry)
    (he : entry.emptyLayer = true) :
    getLayerForHistoryIndex target index = some "" := by
  unfold getLayerForHistoryIndex
  rw [(getLayerScan_out target.history index 0 entry hget).1 he]

/-- `getLayerForHistoryIndex` at a non-empty-layer entry indexes the diff
list at the non-empty-layer count of the strict prefix. -/
theorem getLayer_nonEmpty (target : Image) (index : Nat) (entry : HistoryEntry)
    (hget : target.history.get? index = some entry)
    (he : entry.emptyLayer = false) :
    getLayerForHistoryIndex target index =
      target.rootFS.diffIDs.get? (countNonEmpty (target.history.take index)) := by
  unfold getLayerForHistoryIndex
  rw [(getLayerScan_out target.history index 0 entry hget).2 he]
  simp

/-! ### Lemmas about the history-based source loop -/

/-- Any successful source-loop exit either leaves the source set unchanged
(final-step match or miss) or narrows it to the single matched target, and
narrowing happens exactly on a successful mid-history restoration. -/
theorem scanSources_narrow (s : Store) (parent : Option Image) (lenH : Nat)
    (cfg : Config) (orig : List Image) :
    ∀ (l : List Image) (r : String) (srcs : List Image),
      scanSources s parent lenH cfg orig l = some (r, srcs) →
      srcs = orig ∨ ∃ target ∈ l, srcs = [target] ∧
        isValidParent target parent = true ∧
        isValidConfig cfg (target.history.getD lenH default) = true ∧
        target.history.length - 1 ≠ lenH ∧
        restoreCachedImage s parent target cfg = some r := by
  intro l
  induction l with
  | nil =>
    intro r srcs h
    simp only [scanSources, Option.some.injEq, Prod.mk.injEq] at h
    exact Or.inl h.2.symm
  | cons target rest ih =>
    intro r srcs h
    simp only [scanSources] at h
    by_cases hv : (isValidParent target parent &&
        isValidConfig cfg (target.history.getD lenH default)) = true
    · rw [if_pos hv] at h
      rw [Bool.and_eq_true] at hv
      by_cases hlast : (target.history.length - 1 == lenH) = true
      · rw [if_pos hlast] at h
        cases hp : parent with
        | none =>
          rw [hp] at h
          simp only [Option.some.injEq, Prod.mk.injEq] at h
          exact Or.inl h.2.symm
        | some p =>
          rw [hp] at h
          simp only at h
          by_cases hsp : (s.setParentFails.any
              fun q => q.1 == target.id && q.2 == p.id) = true
          · rw [if_pos hsp] at h
            exact absurd h (by simp)
          · rw [if_neg hsp] at h
            simp only [Option.some.injEq, Prod.mk.injEq] at h
            exact Or.inl h.2.symm
      · rw [if_neg hlast] at h
        cases hres : restoreCachedImage s parent target cfg with
        | none => rw [hres] at h; exact absurd h (by simp)
        | some newID =>
          rw [hres] at h
          simp only [Option.some.injEq, Prod.mk.injEq] at h
          obtain ⟨h1, h2⟩ := h
          subst h1
          exact Or.inr ⟨target, List.mem_cons_self _ _, h2.symm, hv.1, hv.2,
            by simpa using hlast, hres⟩
    · rw [if_neg hv] at h
      rcases ih r srcs h with h1 | ⟨t2, hmem, hrest⟩
      · exact Or.inl h1
      · exact Or.inr ⟨t2, List.mem_cons_of_mem _ hmem, hrest⟩

/-! ### The claims -/

/-- Claim C1: for every parent (nil or not) and matched source, the
restoration procedure builds an image whose History is the parent's History
(empty when nil) plus the single matched entry, whose RootFS is the
parent's RootFS (fresh and empty when nil) with the located layer diff ID
appended exactly when the matched entry's EmptyLayer flag is false, whose
declared config is the requested config, and whose architecture, OS and
author come from the target.  The data-model invariant and non-empty diff
IDs keep the layer lookup in bounds. -/
theorem claim1_restoration_fields (parent : Option Image) (target : Image)
    (cfg : Config) (entry : HistoryEntry)
    (hinv : HistoryLayerInvariant target)
    (hdz : ∀ d ∈ target.rootFS.diffIDs, d ≠ "")
    (hentry : target.history.get? (parentHistLen parent) = some entry) :
    ∃ img, restoredImage parent target cfg = some img ∧
      img.history = parentHistory parent ++ [entry] ∧
      (entry.emptyLayer = true → img.rootFS = parentRootFS parent) ∧
      (entry.emptyLayer = false → ∃ d,
        target.rootFS.diffIDs.get?
          (countNonEmpty (target.history.take (parentHistLen parent))) = some d ∧
        img.rootFS = RootFS.append (parentRootFS parent) d) ∧
      img.config = some cfg ∧
      img.architecture = target.architecture ∧
      img.os = target.os ∧
      img.author = target.author := by
  cases hel : entry.emptyLayer with
  | true =>
    have hlyr := getLayer_empty target (parentHistLen parent) entry hentry hel
    unfold restoredImage
    rw [hentry, hlyr]
    simp only
    have hne : ¬(("" : String) != "") = true := by decide
    rw [if_neg hne]
    refine ⟨_, rfl, rfl, fun _ => rfl, fun hf => ?_, rfl, rfl, rfl, rfl⟩
    exact absurd hf (by decide)
  | false =>
    have hk : countNonEmpty (target.history.take (parentHistLen parent)) <
        target.rootFS.diffIDs.length := by
      rw [hinv]
      exact countNonEmpty_take_lt target.history (parentHistLen parent) entry hentry hel
    have hget := List.get?_eq_get hk
    have hdne : target.rootFS.diffIDs.get ⟨_, hk⟩ ≠ "" :=
      hdz _ (List.get_mem _ _ _)
    have hlyr := getLayer_nonEmpty target (parentHistLen parent) entry hentry hel
    rw [hget] at hlyr
    unfold restoredImage
    rw [hentry, hlyr]
    simp only
    have hbne : (target.rootFS.diffIDs.get ⟨_, hk⟩ != "") = true :=
      bne_iff_ne.mpr hdne
    rw [if_pos hbne]
    refine ⟨_, rfl, rfl, fun hf => ?_, fun _ => ⟨_, hget, rfl⟩, rfl, rfl, rfl, rfl⟩
    exact absurd hf (by decide)

/-- Witness for C1 at a concrete one-step parent and three-step target. -/
theorem claim1_witness :
    ∃ img, restoredImage (some imgP) src0 cfgB = some img ∧
      img.history = parentHistory (some imgP) ++ [hB] ∧
      (hB.emptyLayer = true → img.rootFS = parentRootFS (some imgP)) ∧
      (hB.emptyLayer = false → ∃ d,
        src0.rootFS.diffIDs.get?
          (countNonEmpty (src0.history.take (parentHistLen (some imgP)))) = some d ∧
        img.rootFS = RootFS.append (parentRootFS (some imgP)) d) ∧
      img.config = some cfgB ∧
      img.architecture = src0.architecture ∧
      img.os = src0.os ∧
      img.author = src0.author :=
  claim1_restoration_fields (some imgP) src0 cfgB hB (by decide) (by decide)
    (by decide)

/-- Claim C2 counterexample: in `store2` the locally built child `l` of `p`
satisfies every local-cache match criterion and is the local cache's hit,
yet the combined cache does not return it: no registered source descends
from `l`, so the code falls through to the history scan and returns the
source `s` instead. -/
theorem claim2_counterexample :
    candidateAt store2 cfgB pfLinux "l" = some imgL ∧
    "l" ∈ store2.children "p" ∧
    LocalImageCache.GetCache ⟨store2⟩ "p" (some cfgB) pfLinux = some "l" ∧
    ImageCache.GetCache ic2 "p" cfgB pfLinux = some ("s", ic2.sources) ∧
    ("s" : String) ≠ "l" := by
  refine ⟨by decide, by decide, by decide, by decide, by decide⟩

/-- Claim C2 as amended: the combined cache returns the local hit without
touching the source histories only when the hit is a proper ancestor (via
store parent links) of some registered source; the source set is left
unchanged. -/
theorem claim2_local_hit_requires_ancestry (ic : ImageCache)
    (pid imgID : String) (cfg : Config) (pf : Platform)
    (hloc : LocalImageCache.GetCache ⟨ic.store⟩ pid (some cfg) pf = some imgID)
    (hne : imgID ≠ "")
    (hanc : (ic.sources.any fun src => Store.isParentOf ic.store src.id imgID) = true) :
    ImageCache.GetCache ic pid cfg pf = some (imgID, ic.sources) := by
  unfold ImageCache.GetCache
  rw [hloc]
  have hcond : (imgID != "" &&
      (ic.sources.any fun src => Store.isParentOf ic.store src.id imgID)) = true := by
    rw [Bool.and_eq_true]
    exact ⟨bne_iff_ne.mpr hne, hanc⟩
  exact if_pos hcond

/-- Witness for the amended C2: over `store2b` the local hit `l` is an
ancestor of the registered source `s2`, and the combined cache returns it. -/
theorem claim2_witness :
    ImageCache.GetCache ic2b "p" cfgB pfLinux = some ("l", ic2b.sources) :=
  claim2_local_hit_requires_ancestry ic2b "p" "l" cfgB pfLinux (by decide)
    (by decide) (by decide)

/-- Claim C3 counterexample: in `ic3` the source `s` is a final-step match
for parent `p`, but the store's SetParent fails on that link, and GetCache
surfaces an error (`none`) instead of returning the source's ID. -/
theorem claim3_counterexample :
    isValidParent imgS (some imgP) = true ∧
    imgS.history.length - 1 = imgP.history.length ∧
    ImageCache.GetCache ic3 "p" cfgB pfLinux = none ∧
    ImageCache.GetCache ic3 "p" cfgB pfLinux ≠ some ("s", ic3.sources) := by
  refine ⟨by decide, by decide, by decide, by decide⟩

/-- Claim C3 as amended: when the final-step match's SetParent write fails,
GetCache propagates the failure as an error; the parent-link write is not
best-effort. -/
theorem claim3_setparent_failure_is_error (s : Store) (p : Image) (lenH : Nat)
    (cfg : Config) (orig rest : List Image) (target : Image)
    (hv : isValidParent target (some p) = true)
    (hc : isValidConfig cfg (target.history.getD lenH default) = true)
    (hlast : target.history.length - 1 = lenH)
    (hfail : (s.setParentFails.any
      fun q => q.1 == target.id && q.2 == p.id) = true) :
    scanSources s (some p) lenH cfg orig (target :: rest) = none := by
  simp only [scanSources]
  rw [if_pos (by rw [Bool.and_eq_true]; exact ⟨hv, hc⟩)]
  rw [if_pos (by simpa using hlast)]
  exact if_pos hfail

/-- Witness for the amended C3 at the concrete failing store. -/
theorem claim3_witness :
    scanSources store3 (some imgP) 1 cfgB [imgS] [imgS] = none :=
  claim3_setparent_failure_is_error store3 imgP 1 cfgB [imgS] [] imgS
    (by decide) (by decide) (by decide) (by decide)

/-- Claim C4 counterexample: with a nil parent the validity predicate still
rejects a source whose History is empty, so not every registered source
qualifies. -/
theorem claim4_counterexample : isValidParent imgNoHist none = false := by
  decide

/-- Claim C4 as amended: with a nil parent, or a parent with both empty
History and empty RootFS diff list, every source with non-empty History
qualifies; a source with empty History never does. -/
theorem claim4_empty_parent_accepts (img : Image) (parent : Option Image)
    (hne : img.history ≠ [])
    (hp : parent = none ∨
      ∃ p, parent = some p ∧ p.history = [] ∧ p.rootFS.diffIDs = []) :
    isValidParent img parent = true := by
  have hlen : (img.history.length == 0) = false :=
    beq_eq_false_iff_ne.mpr fun h => hne (List.length_eq_zero.mp h)
  unfold isValidParent
  simp only [hlen, Bool.false_eq_true, if_false]
  rcases hp with hp | ⟨p, hp, h1, h2⟩
  · subst hp; rfl
  · subst hp
    simp [h1, h2]

/-- Witness for the amended C4: the three-step source qualifies under a nil
parent. -/
theorem claim4_witness : isValidParent src0 none = true :=
  claim4_empty_parent_accepts src0 none (by decide) (Or.inl rfl)

/-- Claim C5 counterexample: in `store5` the only child `c` of `p` is
locally built, timestamped and config-matching, but its stored platform is
entirely empty, and the scan discards it: the local cache reports a miss
instead of returning it. -/
theorem claim5_counterexample :
    store5.children "p" = ["c"] ∧
    Store.get store5 "c" = some imgEmptyPlat ∧
    Store.isBuiltLocally store5 "c" = some true ∧
    compare imgEmptyPlat.containerConfig cfgB = true ∧
    imgEmptyPlat.platform.os = "" ∧
    imgEmptyPlat.platform.architecture = "" ∧
    getLocalCachedImage store5 "p" (some cfgB) pfLinux = some none ∧
    LocalImageCache.GetCache ⟨store5⟩ "p" (some cfgB) pfLinux = some "" := by
  refine ⟨by decide, by decide, by decide, by decide, by decide, by decide,
    by decide, by decide⟩

/-- Claim C5 as amended: a child whose stored platform has empty OS and
empty architecture is discarded by the scan and can never be the returned
cache hit. -/
theorem claim5_empty_platform_never_hit (s : Store) (pid : String)
    (cfg : Config) (pf : Platform) (img : Image)
    (h : getLocalCachedImage s pid (some cfg) pf = some (some img)) :
    ¬(img.platform.os = "" ∧ img.platform.architecture = "") := by
  have h2 : localScan s cfg pf (s.children pid) none = some (some img) := h
  rcases localScan_sound s cfg pf (s.children pid) none img h2
    with hm | ⟨id, _, hcand, _⟩
  · exact absurd hm (by simp)
  · have hprops := candidateAt_props s cfg pf id img hcand
    rintro ⟨ho, ha⟩
    have hx := hprops.2.2.1
    rw [ho, ha] at hx
    simp at hx

/-- Witness for the amended C5: the hit returned over `store2` indeed has a
non-empty platform. -/
theorem claim5_witness :
    ¬(imgL.platform.os = "" ∧ imgL.platform.architecture = "") :=
  claim5_empty_platform_never_hit store2 "p" cfgB pfLinux imgL (by decide)

/-- Claim C6: with every child resolvable, (1) any hit of the local cache
is a passing child carrying a non-nil timestamp at least as recent as every
passing child's, (2) if some passing child has a non-nil timestamp the scan
returns a hit, and (3) if no child passes, the local cache returns the
empty string with no error. -/
theorem claim6_most_recent_match (s : Store) (pid : String) (cfg : Config)
    (pf : Platform)
    (hres : ∀ id ∈ s.children pid, (s.get id).isSome = true) :
    (∀ img, getLocalCachedImage s pid (some cfg) pf = some (some img) →
      (∃ id ∈ s.children pid, candidateAt s cfg pf id = some img) ∧
      ∃ t, img.created = some t ∧
        ∀ id2 ∈ s.children pid, ∀ img2 t2,
          candidateAt s cfg pf id2 = some img2 → img2.created = some t2 →
          t2 ≤ t) ∧
    ((∃ id ∈ s.children pid, ∃ img t, candidateAt s cfg pf id = some img ∧
        img.created = some t) →
      ∃ img, getLocalCachedImage s pid (some cfg) pf = some (some img)) ∧
    ((∀ id ∈ s.children pid, candidateAt s cfg pf id = none) →
      LocalImageCache.GetCache ⟨s⟩ pid (some cfg) pf = some "") := by
  refine ⟨?_, ?_, ?_⟩
  · intro img h
    have h2 : localScan s cfg pf (s.children pid) none = some (some img) := h
    rcases localScan_sound s cfg pf (s.children pid) none img h2
      with hm | ⟨id, hmem, hcand, c, hcr⟩
    · exact absurd hm (by simp)
    refine ⟨⟨id, hmem, hcand⟩, c, hcr, ?_⟩
    intro id2 hmem2 img2 t2 hcand2 hcr2
    rcases localScan_passing_le s cfg pf (s.children pid) none _ h2
        (fun mi hmi => absurd hmi (by simp)) id2 hmem2 img2 t2 hcand2 hcr2
      with ⟨rimg, tr, h1, h3, h4⟩
    injection h1 with h1
    subst h1
    rw [hcr] at h3
    injection h3 with h3
    subst h3
    exact h4
  · rintro ⟨id, hmem, img, t, hcand, hcr⟩
    rcases localScan_total s cfg pf (s.children pid) none hres with ⟨r, hr⟩
    rcases localScan_passing_le s cfg pf (s.children pid) none r hr
        (fun mi hmi => absurd hmi (by simp)) id hmem img t hcand hcr
      with ⟨rimg, _, h1, _, _⟩
    subst h1
    exact ⟨rimg, hr⟩
  · intro hnone
    have h2 := localScan_none_passing s cfg pf (s.children pid) none hres hnone
    show getImageIDAndError (getLocalCachedImage s pid (some cfg) pf) = some ""
    have h3 : getLocalCachedImage s pid (some cfg) pf = some none := h2
    rw [h3]
    rfl

/-- Witness for C6 over the concrete `store6` with two passing children. -/
theorem claim6_witness :
    (∀ img, getLocalCachedImage store6 "p" (some cfgB) pfLinux = some (some img) →
      (∃ id ∈ store6.children "p", candidateAt store6 cfgB pfLinux id = some img) ∧
      ∃ t, img.created = some t ∧
        ∀ id2 ∈ store6.children "p", ∀ img2 t2,
          candidateAt store6 cfgB pfLinux id2 = some img2 →
          img2.created = some t2 → t2 ≤ t) ∧
    ((∃ id ∈ store6.children "p", ∃ img t,
        candidateAt store6 cfgB pfLinux id = some img ∧ img.created = some t) →
      ∃ img, getLocalCachedImage store6 "p" (some cfgB) pfLinux = some (some img)) ∧
    ((∀ id ∈ store6.children "p", candidateAt store6 cfgB pfLinux id = none) →
      LocalImageCache.GetCache ⟨store6⟩ "p" (some cfgB) pfLinux = some "") :=
  claim6_most_recent_match store6 "p" cfgB pfLinux (by decide)

/-- Claim C7: under the data-model invariant, a non-empty-layer entry at
the matched index makes the layer lookup index the diff list at exactly the
non-empty-layer count of the strict prefix, an index that is in bounds; an
empty-layer entry returns the empty diff ID for every diff list, without
indexing. -/
theorem claim7_layer_index_bounds (target : Image) (index : Nat)
    (entry : HistoryEntry) (hentry : target.history.get? index = some entry) :
    (HistoryLayerInvariant target → entry.emptyLayer = false →
      countNonEmpty (target.history.take index) < target.rootFS.diffIDs.length ∧
      getLayerForHistoryIndex target index =
        target.rootFS.diffIDs.get? (countNonEmpty (target.history.take index))) ∧
    (entry.emptyLayer = true → ∀ ds : List String,
      getLayerForHistoryIndex
        { target with rootFS := { target.rootFS with diffIDs := ds } } index =
        some "") := by
  constructor
  · intro hinv hel
    refine ⟨?_, getLayer_nonEmpty target index entry hentry hel⟩
    rw [hinv]
    exact countNonEmpty_take_lt target.history index entry hentry hel
  · intro hel ds
    exact getLayer_empty _ index entry hentry hel

/-- Witness for C7 at the three-step source, index 1. -/
theorem claim7_witness :
    countNonEmpty (src0.history.take 1) < src0.rootFS.diffIDs.length ∧
    getLayerForHistoryIndex src0 1 =
      src0.rootFS.diffIDs.get? (countNonEmpty (src0.history.take 1)) :=
  (claim7_layer_index_bounds src0 1 hB (by decide)).1 (by decide) (by decide)

/-- Claim C8 counterexample: with History `[hA, hB, hC]` and an empty
parent, the restoration produces History `[hA]` (the match is at index 0),
never the claimed `[hB]`. -/
theorem claim8_counterexample :
    (restoredImage none src0 cfgA).map (fun i => i.history) = some [hA] ∧
    (restoredImage none src0 cfgA).map (fun i => i.history) ≠ some [hB] := by
  refine ⟨by decide, by decide⟩

/-- Claim C8 as amended: with an empty parent the match is at index 0; for
the source with History `[hA, hB, hC]` (first entry non-empty-layer) the
restored image has single-entry History `[hA]`, a one-element diff list
holding the source's first diff ID, and the requested config rather than
the source's original config. -/
theorem claim8_amended_scenario :
    (restoredImage none src0 cfgA).map
      (fun i => (i.history, i.rootFS.diffIDs, i.config)) =
      some ([hA], ["d1"], some cfgA) ∧
    src0.config ≠ some cfgA := by
  refine ⟨by decide, by decide⟩

/-- Claim C9: every successful GetCache either keeps the source set intact
or narrows it to the single matched source, and the narrowing happens
exactly on a successful mid-history restoration (never on a final-step
match or a miss); the set grows only through Populate, which appends. -/
theorem claim9_narrowing :
    (∀ (ic : ImageCache) (pid : String) (cfg : Config) (pf : Platform)
      (r : String) (srcs : List Image),
      ImageCache.GetCache ic pid cfg pf = some (r, srcs) →
      srcs = ic.sources ∨ ∃ target ∈ ic.sources, srcs = [target] ∧
        ∃ parent lenH,
          ((pid = "" ∧ parent = none ∧ lenH = 0) ∨
           (∃ p, ic.store.get pid = some p ∧ parent = some p ∧
             lenH = p.history.length)) ∧
          isValidParent target parent = true ∧
          isValidConfig cfg (target.history.getD lenH default) = true ∧
          target.history.length - 1 ≠ lenH ∧
          restoreCachedImage ic.store parent target cfg = some r) ∧
    (∀ (ic : ImageCache) (img : Image),
      (ImageCache.Populate ic img).sources = ic.sources ++ [img]) := by
  constructor
  · intro ic pid cfg pf r srcs h
    unfold ImageCache.GetCache at h
    cases hloc : LocalImageCache.GetCache ⟨ic.store⟩ pid (some cfg) pf with
    | none => rw [hloc] at h; exact absurd h (by simp)
    | some imgID =>
      rw [hloc] at h
      simp only at h
      by_cases hfast : (imgID != "" &&
          (ic.sources.any fun src => Store.isParentOf ic.store src.id imgID)) = true
      · rw [if_pos hfast] at h
        simp only [Option.some.injEq, Prod.mk.injEq] at h
        exact Or.inl h.2.symm
      · rw [if_neg hfast] at h
        by_cases hpid : (pid == "") = true
        · rw [if_pos hpid] at h
          rcases scanSources_narrow ic.store none 0 cfg ic.sources ic.sources
              r srcs h with h1 | ⟨t, hmem, hs, hv, hc, hl, hr⟩
          · exact Or.inl h1
          · exact Or.inr ⟨t, hmem, hs, none, 0,
              Or.inl ⟨by simpa using hpid, rfl, rfl⟩, hv, hc, hl, hr⟩
        · rw [if_neg hpid] at h
          cases hget : ic.store.get pid with
          | none => rw [hget] at h; exact absurd h (by simp)
          | some p =>
            rw [hget] at h
            have h2 : scanSources ic.store (some p) p.history.length cfg
                ic.sources ic.sources = some (r, srcs) := h
            rcases scanSources_narrow ic.store (some p) p.history.length cfg
                ic.sources ic.sources r srcs h2 with h1 | ⟨t, hmem, hs, hv, hc, hl, hr⟩
            · exact Or.inl h1
            · exact Or.inr ⟨t, hmem, hs, some p, p.history.length,
                Or.inr ⟨p, rfl, rfl, rfl⟩, hv, hc, hl, hr⟩
  · intro ic img
    rfl

/-- Witness for C9: the concrete mid-history restoration over `ic9` narrows
the source set to the matched source. -/
theorem claim9_witness :
    [srcM] = ic9.sources ∨ ∃ target ∈ ic9.sources, [srcM] = [target] ∧
      ∃ parent lenH,
        ((("" : String) = "" ∧ parent = none ∧ lenH = 0) ∨
         (∃ p, ic9.store.get "" = some p ∧ parent = some p ∧
           lenH = p.history.length)) ∧
        isValidParent target parent = true ∧
        isValidConfig cfgA (target.history.getD lenH default) = true ∧
        target.history.length - 1 ≠ lenH ∧
        restoreCachedImage ic9.store parent target cfgA = some "new9" :=
  claim9_narrowing.1 ic9 "" cfgA pfLinux "new9" [srcM] (by decide)

/-- Claim C10: with a nil requested config the local parent-chain cache
returns a nil match and the empty id with no error, for every store
whatsoever — the result does not depend on the store, so no store call can
influence it. -/
theorem claim10_nil_config_no_store :
    ∀ (s : Store) (pid : String) (pf : Platform),
      getLocalCachedImage s pid none pf = some none ∧
      LocalImageCache.GetCache ⟨s⟩ pid none pf = some "" :=
  fun _ _ _ => ⟨rfl, rfl⟩


end MobyCache
